import Mathlib

/-!
# Verification of the QuMail key lifecycle core

Shallow embedding of the QuMail repository's cipher engine
(`qumail_client/crypto/quantum_encryption.py`), entropy key generator
(`key_manager/quantum/key_generator.py`), and the three key stores
(`qumail_client/embedded_km/neon_key_manager.py`,
`qumail_client/embedded_km/local_key_manager.py`,
`key_manager/database/operations.py`), together with proofs and
refutations of the specified properties.

Python `bytes` are modelled as `List Nat` (each element a byte value),
Python `str` as Lean `String`, timestamps as `Nat`, SQL `NULL` as
`Option`.  Operations that can raise are modelled with `Option`/`Except`.
-/

/-! ## Cipher engine: `QuantumEncryption.encrypt_message` / `decrypt_message`

Source (`quantum_encryption.py` lines 70-125).  Both operations first
stretch the key when it is shorter than the data
(`(key * ((len(data) // len(key)) + 1))[:len(data)]`) and then XOR
byte-wise via `zip`, which truncates to the shorter operand exactly as
Python's `zip` does. -/

/-- The key-extension step shared by `encrypt_message` (lines 75-78) and
`decrypt_message` (lines 113-116): when the key is shorter than the data,
repeat it `len(data) // len(key) + 1` times and truncate to the data
length; otherwise the key is used as given (the `zip` below truncates it).
For an empty key Python would raise `ZeroDivisionError`; every claim
assumes `len(key) >= 1`, where the branch is exact. -/
def extendKey (dlen : Nat) (key : List Nat) : List Nat :=
  if key.length < dlen then
    ((List.replicate (dlen / key.length + 1) key).flatten).take dlen
  else key

/-- `bytes(m ^ k for m, k in zip(data, key))` (line 80 / line 118). -/
def xorBytes (data key : List Nat) : List Nat :=
  List.zipWith (fun m k => m ^^^ k) data key

/-- Byte-level body of `encrypt_message` (lines 75-82): stretch, then XOR. -/
def encryptBytes (data key : List Nat) : List Nat :=
  xorBytes data (extendKey data.length key)

/-- Byte-level body of `decrypt_message` (lines 113-118): the identical
stretch-then-XOR transformation, transcribed separately from its own
source lines. -/
def decryptBytes (data key : List Nat) : List Nat :=
  List.zipWith (fun e k => e ^^^ k)
    data
    (if key.length < data.length then
      ((List.replicate (data.length / key.length + 1) key).flatten).take data.length
    else key)

/-! ## UTF-8 codec

`encrypt_message` starts with `message.encode('utf-8')` (line 73) and
`decrypt_message` ends with `decrypted_bytes.decode('utf-8')` (line 119),
which raises — modelled as `none` — on malformed byte sequences.  We embed
the standard (RFC 3629) UTF-8 codec over `Nat` code points; Lean's `Char`
carries exactly Python's valid-scalar-value invariant (`Nat.isValidChar`). -/

/-- UTF-8 encoding of a single Unicode scalar value, as produced by
Python's `str.encode('utf-8')`. -/
def utf8EncodeCharNat (n : Nat) : List Nat :=
  if n < 128 then [n]
  else if n < 2048 then [192 + n / 64, 128 + n % 64]
  else if n < 65536 then [224 + n / 4096, 128 + n / 64 % 64, 128 + n % 64]
  else [240 + n / 262144, 128 + n / 4096 % 64, 128 + n / 64 % 64, 128 + n % 64]

/-- One step of the strict UTF-8 decoder used by Python's
`bytes.decode('utf-8')`: consume one scalar value from the front, rejecting
continuation-byte leads, overlong forms, surrogates and values above
U+10FFFF.  Returns the decoded code point and the remaining bytes. -/
def utf8DecodeOne : List Nat → Option (Nat × List Nat)
  | [] => none
  | b0 :: bs =>
    if b0 < 128 then some (b0, bs)
    else if b0 < 194 then none
    else if b0 < 224 then
      match bs with
      | b1 :: bs' =>
        if 128 ≤ b1 ∧ b1 < 192 then some ((b0 - 192) * 64 + (b1 - 128), bs')
        else none
      | [] => none
    else if b0 < 240 then
      match bs with
      | b1 :: b2 :: bs' =>
        if 128 ≤ b1 ∧ b1 < 192 ∧ 128 ≤ b2 ∧ b2 < 192 ∧
            2048 ≤ (b0 - 224) * 4096 + (b1 - 128) * 64 + (b2 - 128) ∧
            ¬(55296 ≤ (b0 - 224) * 4096 + (b1 - 128) * 64 + (b2 - 128) ∧
              (b0 - 224) * 4096 + (b1 - 128) * 64 + (b2 - 128) < 57344) then
          some ((b0 - 224) * 4096 + (b1 - 128) * 64 + (b2 - 128), bs')
        else none
      | _ => none
    else if b0 < 245 then
      match bs with
      | b1 :: b2 :: b3 :: bs' =>
        if 128 ≤ b1 ∧ b1 < 192 ∧ 128 ≤ b2 ∧ b2 < 192 ∧ 128 ≤ b3 ∧ b3 < 192 ∧
            65536 ≤ (b0 - 240) * 262144 + (b1 - 128) * 4096 + (b2 - 128) * 64 + (b3 - 128) ∧
            (b0 - 240) * 262144 + (b1 - 128) * 4096 + (b2 - 128) * 64 + (b3 - 128) < 1114112 then
          some ((b0 - 240) * 262144 + (b1 - 128) * 4096 + (b2 - 128) * 64 + (b3 - 128), bs')
        else none
      | _ => none
    else none

/-- Full strict UTF-8 decode, `none` exactly where Python's
`bytes.decode('utf-8')` raises `UnicodeDecodeError`. -/
def utf8Decode (l : List Nat) : Option (List Nat) :=
  match h : utf8DecodeOne l with
  | none => if l.isEmpty then some [] else none
  | some (n, rest) => (utf8Decode rest).map (fun ns => n :: ns)
termination_by l.length
decreasing_by
  rcases l with _ | ⟨b0, _ | ⟨b1, _ | ⟨b2, _ | ⟨b3, bs⟩⟩⟩⟩
  · simp [utf8DecodeOne] at h
  · simp only [utf8DecodeOne] at h
    split_ifs at h <;> simp_all
  · simp only [utf8DecodeOne] at h
    split_ifs at h <;> simp_all <;> omega
  · simp only [utf8DecodeOne] at h
    split_ifs at h <;> simp_all <;> omega
  · simp only [utf8DecodeOne] at h
    split_ifs at h <;> simp_all <;> omega

/-- `message.encode('utf-8')` for a Lean `String`. -/
def encodeString (s : String) : List Nat :=
  s.data.flatMap (fun c => utf8EncodeCharNat c.toNat)

/-- `bytes.decode('utf-8')` producing a Lean `String` (`none` = raise). -/
def decodeString (bs : List Nat) : Option String :=
  (utf8Decode bs).map (fun ns => ⟨ns.map Char.ofNat⟩)

/-- `QuantumEncryption.encrypt_message` (lines 70-86): UTF-8 encode the
message, stretch the key when shorter than the data, XOR byte-wise. -/
def encrypt_message (message : String) (key : List Nat) : List Nat :=
  encryptBytes (encodeString message) key

/-- `QuantumEncryption.decrypt_message` (lines 88-125) on the `bytes` path:
both arguments arrive as `bytes` (exactly what `encrypt_message` produces
and what the claims quantify over), so the `isinstance(..., str)`
base64-normalization branches at lines 94-111 do not fire.  Stretch the key
when shorter, XOR, then `decode('utf-8')`; the function's raise on a failed
decode is `none`. -/
def decrypt_message (encrypted_data key : List Nat) : Option String :=
  decodeString (decryptBytes encrypted_data key)

/-! ## Neon key store: `NeonKeyManager` (`neon_key_manager.py`)

Rows of the `quantum_keys` table (schema at lines 78-94).  Fields not
touched by any claim (`created_at`, `max_usage`, `metadata`) are omitted;
`purpose` is `NULL`-or-empty ⇒ `""` (both are falsy for the `or` at line
473); `key_data_encrypted` is the opaque at-rest ciphertext copied
verbatim by `share` (line 474), so equal stored values decrypt to equal
key material. -/
structure NeonRow where
  key_id : String
  user_id : String
  recipient : Option String
  purpose : String
  key_data_encrypted : String
  key_length : Nat
  quantum_protocol : String
  expires_at : Option Nat
  is_active : Bool
  usage_count : Nat
deriving DecidableEq

/-- `SELECT ... WHERE key_id = %s AND user_id = %s AND is_active = TRUE`
followed by `fetchone()` (lines 281-286 and 449-456). -/
def neonFindKey (k u : String) (st : List NeonRow) : Option NeonRow :=
  st.find? (fun r => r.key_id == k && r.user_id == u && r.is_active)

/-- `row['expires_at'] and datetime.utcnow() > row['expires_at']`
(line 292). -/
def neonExpired (now : Nat) (row : NeonRow) : Bool :=
  match row.expires_at with
  | some t => decide (now > t)
  | none => false

/-- The dictionary returned by `NeonKeyManager.get_key` (lines 308-320),
restricted to the fields the claims mention. -/
structure NeonFetched where
  key_id : String
  key_data : String
  usage_count : Nat
deriving DecidableEq

/-- `NeonKeyManager.get_key` (lines 267-324): select the caller's active
row; `None` when absent or expired (the expired row is *not* modified);
otherwise bump `usage_count` with
`UPDATE quantum_keys SET usage_count = usage_count + 1 WHERE key_id = %s`
— note the `WHERE` clause filters on `key_id` only, not on `user_id` —
and return the record with `usage_count = row['usage_count'] + 1`
(line 317). -/
def neonGetKey (now : Nat) (k u : String) (st : List NeonRow) :
    Option NeonFetched × List NeonRow :=
  match neonFindKey k u st with
  | none => (none, st)
  | some row =>
    if neonExpired now row then (none, st)
    else
      (some { key_id := row.key_id, key_data := row.key_data_encrypted,
              usage_count := row.usage_count + 1 },
       st.map (fun s =>
         if s.key_id == k then { s with usage_count := s.usage_count + 1 } else s))

/-- `key_row['purpose'] or 'shared_for_decryption'` (line 473); Python's
`or` takes the fallback when `purpose` is `None` or `""`. -/
def sharedPurpose (p : String) : String :=
  if p = "" then "shared_for_decryption" else p

/-- Schema of `quantum_keys`: `init` is what `_init_database` creates
(lines 78-94: `key_id VARCHAR(255) PRIMARY KEY`, no other unique
constraint); `migrated` is the state after `migrate_keys_table.py` has
replaced it with the composite PRIMARY KEY `(key_id, user_id)`. -/
inductive NeonSchema where
  | init
  | migrated
deriving DecidableEq

/-- The row inserted by `share_key_with_recipient` (lines 463-479): same
`key_id` and copied `key_data_encrypted`/`key_length`/`quantum_protocol`/
`expires_at`, `user_id` set to the recipient, `recipient` tracking the
sharer, with schema defaults for `is_active` and `usage_count`. -/
def neonSharedRow (k sender recipient : String) (row : NeonRow) : NeonRow where
  key_id := k
  user_id := recipient
  recipient := some sender
  purpose := sharedPurpose row.purpose
  key_data_encrypted := row.key_data_encrypted
  key_length := row.key_length
  quantum_protocol := row.quantum_protocol
  expires_at := row.expires_at
  is_active := true
  usage_count := 0

/-- `NeonKeyManager.share_key_with_recipient` (lines 432-487): read the
owner's active row, then
`INSERT ... ON CONFLICT (key_id, user_id) DO NOTHING`.  PostgreSQL accepts
an `ON CONFLICT (key_id, user_id)` target only when a unique index on
exactly those columns exists: under `NeonSchema.init` the statement raises
`ProgrammingError` ("there is no unique or exclusion constraint matching
the ON CONFLICT specification") before inserting anything, the `except`
block swallows it and the function returns `False` with the store
unchanged.  Under `NeonSchema.migrated` a duplicate `(key_id, user_id)` is
a no-op and the call returns `True`.  Columns absent from the INSERT list
(`is_active`, `usage_count`) take their schema defaults `TRUE` / `0`. -/
def neonShare (schema : NeonSchema) (k sender recipient : String)
    (st : List NeonRow) : Bool × List NeonRow :=
  match neonFindKey k sender st with
  | none => (false, st)
  | some row =>
    match schema with
    | .init => (false, st)
    | .migrated =>
      if ∃ s ∈ st, s.key_id = k ∧ s.user_id = recipient then (true, st)
      else (true, st ++ [neonSharedRow k sender recipient row])

/-! ## Embedded local key store: `EmbeddedKeyManager` (`local_key_manager.py`)

Rows of the SQLite `quantum_keys` table (lines 52-66); `key_id` is the
table's PRIMARY KEY.  `encrypted_key_bytes` is stored Fernet-encrypted and
decrypted on fetch; the at-rest encryption is a bijection never inspected
by a claim, so `key_bytes` holds the raw material.  ISO-8601 timestamp
strings compare chronologically, modelled as `Nat`. -/
structure LocalRow where
  key_id : String
  key_bytes : List Nat
  status : String
  created_for : String
  used_by : Option String
  used_at : Option Nat
  expiry_time : Nat
  key_length : Nat
deriving DecidableEq

/-- `SELECT * FROM quantum_keys WHERE key_id = ? AND created_for = ?`,
`fetchone()` (lines 194-199). -/
def localFind (k u : String) (st : List LocalRow) : Option LocalRow :=
  st.find? (fun r => r.key_id == k && r.created_for == u)

/-- The dictionary returned by `EmbeddedKeyManager.get_quantum_key`
(lines 222-229), restricted to the fields the claims mention
(`timestamp` and `hash` omitted). -/
structure LocalFetched where
  key_id : String
  key_bytes : List Nat
  status : String
  key_length : Nat
deriving DecidableEq

/-- `EmbeddedKeyManager.get_quantum_key` (lines 179-232): find the
caller's row; if `utcnow() > expiry_time and status == 'unused'`, run
`UPDATE quantum_keys SET status = 'expired' WHERE key_id = ?` (key only —
the PRIMARY KEY makes that the single row) and return `None`; if the
status is `'used'` or `'expired'`, return `None`; otherwise return the
decrypted record. -/
def localGetQuantumKey (now : Nat) (k u : String) (st : List LocalRow) :
    Option LocalFetched × List LocalRow :=
  match localFind k u st with
  | none => (none, st)
  | some row =>
    if now > row.expiry_time ∧ row.status = "unused" then
      (none, st.map (fun s =>
        if s.key_id == k then { s with status := "expired" } else s))
    else if row.status = "used" ∨ row.status = "expired" then (none, st)
    else
      (some { key_id := row.key_id, key_bytes := row.key_bytes,
              status := row.status, key_length := row.key_length }, st)

/-- `EmbeddedKeyManager.mark_key_used` (lines 234-258):
`UPDATE ... SET status = 'used', used_by = ?, used_at = ?
WHERE key_id = ? AND status = 'unused'`; returns `rowcount > 0`. -/
def localMarkKeyUsed (now : Nat) (k used_by : String) (st : List LocalRow) :
    Bool × List LocalRow :=
  (st.any (fun r => r.key_id == k && r.status == "unused"),
   st.map (fun r =>
     if r.key_id == k && r.status == "unused" then
       { r with status := "used", used_by := some used_by, used_at := some now }
     else r))

/-- `EmbeddedKeyManager.cleanup_expired_keys` (lines 336-358):
`UPDATE ... SET status = 'expired' WHERE status = 'unused' AND
expiry_time < ?`; returns the rowcount. -/
def localCleanupExpired (now : Nat) (st : List LocalRow) :
    Nat × List LocalRow :=
  (st.countP (fun r => r.status == "unused" && decide (r.expiry_time < now)),
   st.map (fun r =>
     if r.status == "unused" && decide (r.expiry_time < now) then
       { r with status := "expired" }
     else r))

/-- The store-mutating operations of the embedded manager cited by the
claims (`generate_quantum_key` inserts only fresh PRIMARY-KEY `key_id`s
and so never recreates an existing one). -/
inductive LocalOp where
  | get (now : Nat) (key user : String)
  | mark (now : Nat) (key user : String)
  | sweep (now : Nat)

def applyLocalOp (st : List LocalRow) (op : LocalOp) : List LocalRow :=
  match op with
  | .get now k u => (localGetQuantumKey now k u st).2
  | .mark now k u => (localMarkKeyUsed now k u st).2
  | .sweep now => (localCleanupExpired now st).2

def applyLocalOps (st : List LocalRow) (ops : List LocalOp) : List LocalRow :=
  ops.foldl applyLocalOp st

/-- The SQLite PRIMARY KEY on `key_id` (line 54). -/
def localKeysNodup (st : List LocalRow) : Prop :=
  (st.map (fun r => r.key_id)).Nodup

/-- Every status string the embedded manager ever writes (insert:
`'unused'`, updates: `'used'` / `'expired'`). -/
def localStatusOk (st : List LocalRow) : Prop :=
  ∀ r ∈ st, r.status = "unused" ∨ r.status = "used" ∨ r.status = "expired"

/-! ## Server-side key service: `QuantumKeyService` (`operations.py`)

Rows of the SQLAlchemy `QuantumKey` model (`models.py` lines 14-27);
`key_id` is the primary key there too. -/
structure SvcRow where
  key_id : String
  key_bytes : List Nat
  status : String
  created_for : String
  used_by : Option String
  used_at : Option Nat
deriving DecidableEq

/-- Replace the first element satisfying `p` (SQLAlchemy `.first()` then
mutate-and-commit). -/
def setFirst {α : Type} (p : α → Bool) (f : α → α) : List α → List α
  | [] => []
  | x :: xs => if p x then f x :: xs else x :: setFirst p f xs

/-- `QuantumKeyService.mark_key_used` (lines 96-124): look the row up by
`key_id` alone; `False` only when it is missing; otherwise set
`status = 'used'`, `used_by`, `used_at` — with no check of the current
status — and return `True`. -/
def svcMarkRow (now : Nat) (u : String) (r : SvcRow) : SvcRow :=
  { r with status := "used", used_by := some u, used_at := some now }

def svcMarkKeyUsed (now : Nat) (k used_by : String) (st : List SvcRow) :
    Bool × List SvcRow :=
  match st.find? (fun r => r.key_id == k) with
  | none => (false, st)
  | some _ =>
    (true, setFirst (fun r => r.key_id == k) (svcMarkRow now used_by) st)

/-- `QuantumKeyService.get_quantum_key` (lines 65-94): filter by
`key_id` and `created_for`, return the first row's data (any status) or
`None`. -/
def svcGetQuantumKey (k u : String) (st : List SvcRow) : Option SvcRow :=
  st.find? (fun r => r.key_id == k && r.created_for == u)

/-! ## Entropy generator: `QuantumKeyGenerator` (`key_generator.py`) -/

/-- In Python, `probability = count / total_bytes` is a `float` (true
division always yields `float`), and `float` has no `bit_length`
attribute, so `probability.bit_length()` at line 244 raises. -/
def pyFloatBitLengthError : String :=
  "AttributeError: float object has no attribute bit_length"

/-- `byte_counts` (lines 234-236): a 256-entry histogram. -/
def byteCounts (key_bytes : List Nat) : List Nat :=
  (List.range 256).map (fun b => key_bytes.count b)

/-- The loop `for count in byte_counts: if count > 0: entropy -=
probability * (probability.bit_length() - 1)` (lines 241-244): the first
positive count evaluates `probability.bit_length()` and raises; counts of
zero are skipped. -/
def entropyLoop : List Nat → ℚ → Except String ℚ
  | [], e => .ok e
  | c :: cs, e =>
    if c > 0 then .error pyFloatBitLengthError
    else entropyLoop cs e

/-- `QuantumKeyGenerator._measure_entropy_quality` (lines 225-247):
`0.0` for the empty input (line 231); otherwise the histogram loop —
which raises on the first positive count — followed by the normalization
`min(entropy / 8.0, 1.0)`. -/
def measure_entropy_quality (key_bytes : List Nat) : Except String ℚ :=
  if key_bytes.length = 0 then .ok 0
  else do
    let e ← entropyLoop (byteCounts key_bytes) 0
    .ok (min (e / 8) 1)

/-- Number of set bits of a byte (`bin(byte).count('1')`, line 260). -/
def popCountByte (b : Nat) : Nat :=
  (List.range 8).countP (fun p => b.testBit p)

/-- The bit sequence walked by the runs test (lines 265-272), low bit
first per byte. -/
def bitSeq (key_bytes : List Nat) : List Bool :=
  key_bytes.flatMap (fun b => (List.range 8).map (fun i => b.testBit i))

/-- The runs counter (lines 265-272): `prev_bit` starts as `None`, so the
first bit always opens a run. -/
def runsCount (bs : List Bool) : Nat :=
  (bs.foldl (fun (st : Option Bool × Nat) bit =>
    if some bit ≠ st.1 then (some bit, st.2 + 1) else (some bit, st.2))
    (none, 0)).2

/-- `QuantumKeyGenerator.verify_key_randomness` (lines 249-291), reduced
to its `overall_quality` verdict.  For a nonempty key the
`entropy_quality` line (257) raises first; for an empty key the frequency
test divides by `total_bits = 0`. -/
def verify_key_randomness (key_bytes : List Nat) : Except String Bool := do
  let eq ← measure_entropy_quality key_bytes
  if key_bytes.length = 0 then .error "ZeroDivisionError: division by zero"
  else
    let totalBits : ℚ := 8 * key_bytes.length
    let ones : ℚ := ((key_bytes.map popCountByte).sum : Nat)
    let freqTest := |ones / totalBits - 1 / 2| < 1 / 10
    let runs : ℚ := (runsCount (bitSeq key_bytes) : Nat)
    let expectedRuns : ℚ := totalBits / 2
    let runsTest := |runs - expectedRuns| / expectedRuns < 1 / 10
    let expectedFreq : ℚ := (key_bytes.length : ℚ) / 256
    let chiSquare : ℚ :=
      ((List.range 256).map (fun i =>
        if 0 < expectedFreq then
          ((key_bytes.count i : ℚ) - expectedFreq) ^ 2 / expectedFreq
        else 0)).sum
    let chiTest := chiSquare < 300
    .ok (decide (eq > 9 / 10) && decide freqTest && decide runsTest &&
      decide chiTest)

def quantum_protocols : List String := ["BB84", "B92", "SARG04", "E91"]

/-- The bit-flip noise pass shared by the four `_simulate_*` protocol
simulations (lines 100-223): each walks the key bytes and flips bit `pos`
of byte `i` exactly when its random draw fires; the random draws (error
rate, basis choices, `random.random()`) are abstracted into the oracle
`flip`.  Byte length is always preserved. -/
def simulateNoise (flip : Nat → Nat → Bool) (key : List Nat) : List Nat :=
  key.mapIdx (fun i b =>
    (List.range 8).foldl
      (fun acc pos => if flip i pos then acc ^^^ (1 <<< pos) else acc) b)

/-- `QuantumKeyGenerator.generate_quantum_key` (lines 34-70): validate the
protocol, run the simulation pass over the freshly drawn random bytes
`raw` (the secure-random source is abstracted as an input), then build the
metadata — whose `entropy_quality` entry (line 66) calls
`_measure_entropy_quality` and therefore raises for any nonempty key.
Returns the key bytes and the entropy score.  (The degenerate
`length_bytes = 0` case, where BB84's basis bookkeeping divides by zero,
is outside every claim's bounds and not modelled.) -/
def generate_quantum_key (flip : Nat → Nat → Bool) (raw : List Nat)
    (protocol : String) : Except String (List Nat × ℚ) :=
  if protocol ∈ quantum_protocols then
    let key := simulateNoise flip raw
    do
      let eq ← measure_entropy_quality key
      .ok (key, eq)
  else .error "ValueError: Unsupported protocol"

/-- Metadata fields of `generate_key_with_verification` that the claims
mention. -/
structure GenMeta where
  protocol : String
  key_length : Nat
  entropy_quality : ℚ
  generation_attempt : Nat
  overall_quality : Bool
  verification_passed : Option Bool
deriving DecidableEq

/-- `QuantumKeyGenerator.generate_key_with_verification` (lines 293-314):
up to `max_attempts` rounds of generate-then-verify; on success return
with `verification_passed = True`, after the last failed round return the
last attempt with `verification_passed = False`.  `attempt` is the current
round index, the second `Nat` the remaining rounds; with `max_attempts = 0`
the post-loop code reads locals that were never bound (`NameError`).
`flip`/`raw` supply each round's random draws. -/
def generate_key_with_verification (flip : Nat → Nat → Nat → Bool)
    (raw : Nat → List Nat) (protocol : String) :
    Nat → Nat → Except String (List Nat × GenMeta)
  | _, 0 => .error "NameError: name metadata is not defined"
  | attempt, n + 1 => do
    let (key, eq) ← generate_quantum_key (flip attempt) (raw attempt) protocol
    let ok ← verify_key_randomness key
    let meta : GenMeta :=
      { protocol := protocol, key_length := key.length, entropy_quality := eq,
        generation_attempt := attempt + 1, overall_quality := ok,
        verification_passed := none }
    if ok then .ok (key, { meta with verification_passed := some true })
    else
      match n with
      | 0 => .ok (key, { meta with verification_passed := some false })
      | m + 1 =>
        generate_key_with_verification flip raw protocol (attempt + 1) (m + 1)

/-! ## Concrete stores for refutations and witnesses -/

def exOwnerRow : NeonRow where
  key_id := "k1"
  user_id := "alice"
  recipient := some "bob"
  purpose := "email_encryption"
  key_data_encrypted := "ENC1"
  key_length := 32
  quantum_protocol := "BB84"
  expires_at := some 100
  is_active := true
  usage_count := 0

def exShareStore : List NeonRow := [exOwnerRow]

def exExpiredRow : NeonRow :=
  { exOwnerRow with key_id := "k2", expires_at := some 10 }

def exExpiredStore : List NeonRow := [exExpiredRow]

def exRowA : NeonRow :=
  { exOwnerRow with key_id := "k3", user_id := "A", recipient := some "B" }

def exRowB : NeonRow := { exRowA with user_id := "B", recipient := some "A" }

def exTwoHolderStore : List NeonRow := [exRowA, exRowB]

def exUsedSvcRow : SvcRow where
  key_id := "k4"
  key_bytes := [1, 2]
  status := "used"
  created_for := "A"
  used_by := some "A"
  used_at := some 1

def exExpiredSvcRow : SvcRow where
  key_id := "k5"
  key_bytes := [3]
  status := "expired"
  created_for := "A"
  used_by := none
  used_at := none

def exLocalUnusedRow : LocalRow where
  key_id := "kL"
  key_bytes := [9, 9]
  status := "unused"
  created_for := "alice"
  used_by := none
  used_at := none
  expiry_time := 100
  key_length := 2

def exLocalStore : List LocalRow := [exLocalUnusedRow]

def exLocalExpiredRow : LocalRow :=
  { exLocalUnusedRow with key_id := "k2", expiry_time := 5 }

def exLocalExpiredStore : List LocalRow := [exLocalExpiredRow]

/-- No row of the given `key_id` is still `'unused'` — the invariant a
successful `mark_key_used` establishes for its key. -/
def localNoUnused (k : String) (st : List LocalRow) : Prop :=
  ∀ r ∈ st, r.key_id = k → r.status ≠ "unused"

/-! ## Theorems -/

theorem utf8DecodeOne_encode (n : Nat) (hv : n.isValidChar) (rest : List Nat) :
    utf8DecodeOne (utf8EncodeCharNat n ++ rest) = some (n, rest) := by
  have hv' : n < 55296 ∨ (57343 < n ∧ n < 1114112) := hv
  by_cases h1 : n < 128
  · simp [utf8EncodeCharNat, utf8DecodeOne, h1]
  · by_cases h2 : n < 2048
    · have e : utf8EncodeCharNat n = [192 + n / 64, 128 + n % 64] := by
        rw [utf8EncodeCharNat, if_neg h1, if_pos h2]
      rw [e]
      simp only [List.cons_append, List.nil_append, utf8DecodeOne]
      split_ifs <;>
        first
          | (exfalso; omega)
          | (simp only [Option.some.injEq, Prod.mk.injEq]; exact ⟨by omega, by trivial⟩)
    · by_cases h3 : n < 65536
      · have e : utf8EncodeCharNat n =
            [224 + n / 4096, 128 + n / 64 % 64, 128 + n % 64] := by
          rw [utf8EncodeCharNat, if_neg h1, if_neg h2, if_pos h3]
        rw [e]
        simp only [List.cons_append, List.nil_append, utf8DecodeOne]
        split_ifs <;>
          first
            | (exfalso; omega)
            | (simp only [Option.some.injEq, Prod.mk.injEq]; exact ⟨by omega, by trivial⟩)
      · have e : utf8EncodeCharNat n =
            [240 + n / 262144, 128 + n / 4096 % 64, 128 + n / 64 % 64, 128 + n % 64] := by
          rw [utf8EncodeCharNat, if_neg h1, if_neg h2, if_neg h3]
        rw [e]
        simp only [List.cons_append, List.nil_append, utf8DecodeOne]
        split_ifs <;>
          first
            | (exfalso; omega)
            | (simp only [Option.some.injEq, Prod.mk.injEq]; exact ⟨by omega, by trivial⟩)

theorem utf8Decode_nil : utf8Decode [] = some [] := by
  simp [utf8Decode, utf8DecodeOne]

theorem utf8Decode_step {l : List Nat} {n : Nat} {rest : List Nat}
    (h : utf8DecodeOne l = some (n, rest)) :
    utf8Decode l = (utf8Decode rest).map (fun ns => n :: ns) := by
  rw [utf8Decode]
  split
  · next heq => rw [h] at heq; exact absurd heq (by simp)
  · next m r heq =>
    rw [h] at heq
    obtain ⟨rfl, rfl⟩ : n = m ∧ rest = r := by simpa using heq
    rfl

theorem utf8Decode_flatMap_encode :
    ∀ (ns : List Nat), (∀ n ∈ ns, n.isValidChar) →
      utf8Decode (ns.flatMap utf8EncodeCharNat) = some ns := by
  intro ns
  induction ns with
  | nil => intro _; rw [List.flatMap_nil]; exact utf8Decode_nil
  | cons m ms ih =>
    intro hval
    rw [List.flatMap_cons,
      utf8Decode_step (utf8DecodeOne_encode m (hval m (by simp)) _),
      ih (fun n hn => hval n (by simp [hn]))]
    rfl

theorem charOfNat_toNat (c : Char) : Char.ofNat c.toNat = c := by
  have hv : Nat.isValidChar c.toNat := c.valid
  rw [Char.ofNat, dif_pos hv]
  apply Char.ext
  apply UInt32.eq_of_toBitVec_eq
  apply BitVec.eq_of_toNat_eq
  rfl

theorem decodeString_encodeString (s : String) :
    decodeString (encodeString s) = some s := by
  unfold decodeString encodeString
  have h1 : s.data.flatMap (fun c => utf8EncodeCharNat c.toNat) =
      (s.data.map Char.toNat).flatMap utf8EncodeCharNat := by
    rw [List.flatMap_def, List.flatMap_def, List.map_map]
    rfl
  rw [h1, utf8Decode_flatMap_encode _ ?hval]
  case hval =>
    intro n hn
    obtain ⟨c, _, rfl⟩ := List.mem_map.mp hn
    exact c.valid
  have h2 : (s.data.map Char.toNat).map Char.ofNat = s.data := by
    simp [List.map_map, Function.comp_def, charOfNat_toNat]
  simp [h2]

/-! ## Helper lemmas for the keystream -/

theorem getElem_flatten_replicate {α : Type} (l : List α) :
    ∀ (n : Nat) (i : Nat), i < n * l.length →
      ((List.replicate n l).flatten)[i]? = l[i % l.length]? := by
  intro n
  induction n with
  | zero => intro i hi; omega
  | succ m ih =>
    intro i hi
    rw [List.replicate_succ, List.flatten_cons]
    have hsm : (m + 1) * l.length = m * l.length + l.length := Nat.succ_mul m l.length
    by_cases h : i < l.length
    · rw [List.getElem?_append, if_pos h, Nat.mod_eq_of_lt h]
    · have hge : l.length ≤ i := Nat.le_of_not_lt h
      obtain ⟨j, rfl⟩ : ∃ j, i = l.length + j := ⟨i - l.length, by omega⟩
      rw [List.getElem?_append_right hge]
      have hj : j < m * l.length := by omega
      rw [Nat.add_sub_cancel_left, ih j hj, Nat.add_mod_left]

theorem length_flatten_replicate {α : Type} (n : Nat) (l : List α) :
    ((List.replicate n l).flatten).length = n * l.length := by
  simp [List.length_flatten, List.map_replicate, List.sum_replicate,
    smul_eq_mul]

theorem lt_div_succ_mul (L len : Nat) (h : 0 < len) :
    L < (L / len + 1) * len := by
  calc L = len * (L / len) + L % len := (Nat.div_add_mod L len).symm
    _ < len * (L / len) + len := Nat.add_lt_add_left (Nat.mod_lt L h) _
    _ = len * (L / len + 1) := (Nat.mul_succ len (L / len)).symm
    _ = (L / len + 1) * len := Nat.mul_comm _ _

theorem extendKey_length (dlen : Nat) (key : List Nat) (hk : 0 < key.length) :
    dlen ≤ (extendKey dlen key).length := by
  unfold extendKey
  split
  · rw [List.length_take, length_flatten_replicate]
    have := lt_div_succ_mul dlen key.length hk
    omega
  · omega

theorem extendKey_getElem (dlen : Nat) (key : List Nat) (hk : 0 < key.length)
    (i : Nat) (hi : i < dlen) :
    (extendKey dlen key)[i]? = key[i % key.length]? := by
  unfold extendKey
  split
  · rw [List.getElem?_take, if_pos hi]
    apply getElem_flatten_replicate key
    have := lt_div_succ_mul dlen key.length hk
    omega
  · have hik : i < key.length := by omega
    rw [Nat.mod_eq_of_lt hik]

theorem encryptBytes_length (data key : List Nat) (hk : 0 < key.length) :
    (encryptBytes data key).length = data.length := by
  unfold encryptBytes xorBytes
  rw [List.length_zipWith]
  have := extendKey_length data.length key hk
  omega

theorem encryptBytes_eq_decryptBytes (data key : List Nat) :
    encryptBytes data key = decryptBytes data key := rfl

theorem encryptBytes_getElem (data key : List Nat) (hk : 0 < key.length)
    (i : Nat) (hi : i < data.length) (h1 : i < (encryptBytes data key).length)
    (h2 : i % key.length < key.length) :
    (encryptBytes data key)[i] = data[i] ^^^ key[i % key.length] := by
  have hq : (encryptBytes data key)[i]? =
      some (data[i] ^^^ key[i % key.length]) := by
    unfold encryptBytes xorBytes
    rw [List.getElem?_zipWith, List.getElem?_eq_getElem hi,
      extendKey_getElem data.length key hk i hi, List.getElem?_eq_getElem h2]
  rw [List.getElem?_eq_getElem h1] at hq
  exact Option.some.inj hq

theorem zipWith_xor_cancel :
    ∀ (a b : List Nat), a.length ≤ b.length →
      List.zipWith (fun e k => e ^^^ k)
        (List.zipWith (fun m k => m ^^^ k) a b) b = a := by
  intro a
  induction a with
  | nil => intro b _; simp
  | cons x xs ih =>
    intro b hb
    cases b with
    | nil => simp at hb
    | cons y ys =>
      simp only [List.zipWith_cons_cons, Nat.xor_cancel_right, List.cons.injEq,
        true_and]
      exact ih ys (by simpa using hb)

/-- C2: with `len(K) ≥ 1`, the effective keystream is `K` repeated
cyclically and truncated to `len(D)`: the output has length `len(D)`,
output byte `i` is `D[i] XOR K[i mod len(K)]` for every `i < len(D)` (so a
longer key is truncated to `len(D)`), and `encrypt_message` and
`decrypt_message` apply the identical stretch-then-XOR transformation to
their byte inputs. -/
theorem keystream_policy (data key : List Nat) (hk : 1 ≤ key.length) :
    (encryptBytes data key).length = data.length ∧
    (∀ (i : Nat) (h1 : i < data.length) (h2 : i < (encryptBytes data key).length)
        (h3 : i % key.length < key.length),
        (encryptBytes data key)[i] = data[i] ^^^ key[i % key.length]) ∧
    (∀ (d k : List Nat), encryptBytes d k = decryptBytes d k) := by
  refine ⟨encryptBytes_length data key hk, ?_, fun d k => rfl⟩
  intro i h1 h2 h3
  exact encryptBytes_getElem data key hk i h1 h2 h3

theorem keystream_policy_witness :
    1 ≤ ([5, 6] : List Nat).length ∧
      (encryptBytes [1, 2, 3] [5, 6]).length = ([1, 2, 3] : List Nat).length :=
  ⟨by decide, (keystream_policy [1, 2, 3] [5, 6] (by decide)).1⟩

/-- C1: cipher round-trip — for every plaintext string `P` and key byte
sequence `K` with `len(K) ≥ 1` (shorter-than-data keys engage stretching,
longer ones are truncated by `zip`),
`decrypt_message(encrypt_message(P, K), K)` returns `P`. -/
theorem cipher_round_trip (P : String) (K : List Nat) (hk : 1 ≤ K.length) :
    decrypt_message (encrypt_message P K) K = some P := by
  unfold decrypt_message encrypt_message
  have hlen : (encryptBytes (encodeString P) K).length = (encodeString P).length :=
    encryptBytes_length _ _ hk
  rw [← encryptBytes_eq_decryptBytes]
  have hx : encryptBytes (encryptBytes (encodeString P) K) K = encodeString P := by
    show xorBytes (encryptBytes (encodeString P) K)
        (extendKey (encryptBytes (encodeString P) K).length K) = _
    rw [hlen]
    exact zipWith_xor_cancel (encodeString P) (extendKey (encodeString P).length K)
      (extendKey_length (encodeString P).length K hk)
  rw [hx, decodeString_encodeString]

theorem cipher_round_trip_witness :
    1 ≤ ([7] : List Nat).length ∧
      decrypt_message (encrypt_message "ab" [7]) [7] = some "ab" :=
  ⟨by decide, cipher_round_trip "ab" [7] (by decide)⟩

/-! ## C3: share idempotence -/

/-- C3 (counterexample): under the schema that `_init_database` itself
creates — `key_id` alone PRIMARY KEY, no unique constraint on
`(key_id, user_id)` — even the *first* `share_key_with_recipient` call
reports failure, and after two calls the store holds no row at all for
`(key_id, recipient)`: the claim's "both calls report success" and
"exactly one row for (key_id, recipient)" are false on this input. -/
theorem share_idempotence_fails_on_init_schema :
    (neonShare .init "k1" "alice" "bob" exShareStore).1 = false ∧
    (neonShare .init "k1" "alice" "bob"
      (neonShare .init "k1" "alice" "bob" exShareStore).2).1 = false ∧
    ((neonShare .init "k1" "alice" "bob"
      (neonShare .init "k1" "alice" "bob" exShareStore).2).2.filter
        (fun r => r.key_id == "k1" && r.user_id == "bob")).length = 0 := by
  decide

/-- C3 (amended): once `migrate_keys_table.py` has installed the composite
PRIMARY KEY `(key_id, user_id)`, sharing is idempotent as claimed: with the
owner's active row present, a recipient not yet holding the key, and a
non-empty owner purpose, both calls report success, the second call is a
no-op, and afterwards exactly one row exists for `(key_id, recipient)`,
carrying the owner's `key_data_encrypted`, `expires_at` and `purpose`. -/
theorem share_idempotent_after_migration
    (st : List NeonRow) (k a b : String) (row : NeonRow)
    (hfind : neonFindKey k a st = some row)
    (hnob : ∀ s ∈ st, ¬(s.key_id = k ∧ s.user_id = b))
    (hp : row.purpose ≠ "") :
    (neonShare .migrated k a b st).1 = true ∧
    (neonShare .migrated k a b (neonShare .migrated k a b st).2).1 = true ∧
    (neonShare .migrated k a b (neonShare .migrated k a b st).2).2 =
      (neonShare .migrated k a b st).2 ∧
    (neonShare .migrated k a b st).2.filter
        (fun r => r.key_id == k && r.user_id == b) =
      [neonSharedRow k a b row] ∧
    (neonSharedRow k a b row).key_data_encrypted = row.key_data_encrypted ∧
    (neonSharedRow k a b row).expires_at = row.expires_at ∧
    (neonSharedRow k a b row).purpose = row.purpose := by
  have hnex : ¬∃ s ∈ st, s.key_id = k ∧ s.user_id = b := by
    rintro ⟨s, hs, h1, h2⟩
    exact hnob s hs ⟨h1, h2⟩
  have h1 : neonShare .migrated k a b st =
      (true, st ++ [neonSharedRow k a b row]) := by
    unfold neonShare
    rw [hfind]
    show (if ∃ s ∈ st, s.key_id = k ∧ s.user_id = b then (true, st)
      else (true, st ++ [neonSharedRow k a b row])) = _
    rw [if_neg hnex]
  have h2 : neonFindKey k a (st ++ [neonSharedRow k a b row]) = some row := by
    unfold neonFindKey at hfind ⊢
    rw [List.find?_append, hfind, Option.or_some]
  have hmem : ∃ s ∈ st ++ [neonSharedRow k a b row],
      s.key_id = k ∧ s.user_id = b :=
    ⟨neonSharedRow k a b row, by simp, rfl, rfl⟩
  have h3 : neonShare .migrated k a b (st ++ [neonSharedRow k a b row]) =
      (true, st ++ [neonSharedRow k a b row]) := by
    unfold neonShare
    rw [h2]
    show (if ∃ s ∈ st ++ [neonSharedRow k a b row], s.key_id = k ∧ s.user_id = b
        then (true, st ++ [neonSharedRow k a b row])
      else (true, (st ++ [neonSharedRow k a b row]) ++
        [neonSharedRow k a b row])) = _
    rw [if_pos hmem]
  have hfilter : (st ++ [neonSharedRow k a b row]).filter
      (fun r => r.key_id == k && r.user_id == b) = [neonSharedRow k a b row] := by
    rw [List.filter_append]
    have hnil : st.filter (fun r => r.key_id == k && r.user_id == b) = [] := by
      rw [List.filter_eq_nil_iff]
      intro s hs hcontr
      exact hnob s hs (by simpa using hcontr)
    rw [hnil]
    simp [neonSharedRow]
  have hpurpose : (neonSharedRow k a b row).purpose = row.purpose := by
    show sharedPurpose row.purpose = row.purpose
    unfold sharedPurpose
    rw [if_neg hp]
  rw [h1]
  exact ⟨rfl, by rw [h3], by rw [h3], hfilter, rfl, rfl, hpurpose⟩

theorem share_idempotent_after_migration_witness :
    (neonShare .migrated "k1" "alice" "bob" exShareStore).1 = true ∧
    (neonShare .migrated "k1" "alice" "bob"
      (neonShare .migrated "k1" "alice" "bob" exShareStore).2).1 = true :=
  ⟨(share_idempotent_after_migration exShareStore "k1" "alice" "bob" exOwnerRow
      (by decide) (by decide) (by decide)).1,
   (share_idempotent_after_migration exShareStore "k1" "alice" "bob" exOwnerRow
      (by decide) (by decide) (by decide)).2.1⟩

/-! ## C4: fetch on an expired row -/

/-- C4 (counterexample): fetching a Neon row whose `expires_at` is past
returns `None` but performs no write at all — afterwards the store is
unchanged and the row's `is_active` flag is still `true` — refuting the
claim's "flips the row's active flag to false (marks the row
inactive/expired)" side effect. -/
theorem expired_fetch_leaves_row_active :
    (neonGetKey 20 "k2" "alice" exExpiredStore).1 = none ∧
    (neonGetKey 20 "k2" "alice" exExpiredStore).2 = exExpiredStore ∧
    exExpiredRow.is_active = true ∧
    exExpiredRow.expires_at = some 10 := by
  decide

/-- C4 (amended): a row past its `expires_at` never yields key material,
on every call and without any prior sweep.  The Neon `get_key` returns
`None` with the store unchanged (no flag is flipped); the embedded
`get_quantum_key` returns `None`, marking the addressed key's row
`'expired'` exactly when it was still `'unused'`, and leaving the store
unchanged otherwise. -/
theorem expired_fetch_amended
    (now : Nat) (k u : String)
    (nst : List NeonRow)
    (hexp : ∀ r ∈ nst, r.key_id = k → r.user_id = u → r.is_active = true →
      neonExpired now r = true)
    (lst : List LocalRow) (lrow : LocalRow)
    (hfind : localFind k u lst = some lrow)
    (hlex : lrow.expiry_time < now)
    (hstat : lrow.status = "unused" ∨ lrow.status = "used" ∨
      lrow.status = "expired") :
    neonGetKey now k u nst = (none, nst) ∧
    (localGetQuantumKey now k u lst).1 = none ∧
    (lrow.status = "unused" →
      (localGetQuantumKey now k u lst).2 = lst.map (fun s =>
        if s.key_id == k then { s with status := "expired" } else s)) ∧
    (lrow.status ≠ "unused" → (localGetQuantumKey now k u lst).2 = lst) := by
  have hneon : neonGetKey now k u nst = (none, nst) := by
    cases hn : neonFindKey k u nst with
    | none => unfold neonGetKey; rw [hn]
    | some r =>
      have hn2 := hn
      unfold neonFindKey at hn2
      have hmem : r ∈ nst := List.mem_of_find?_eq_some hn2
      have hpred := List.find?_some hn2
      simp only [Bool.and_eq_true, beq_iff_eq] at hpred
      obtain ⟨⟨hk, hu⟩, ha⟩ := hpred
      have hex : neonExpired now r = true := hexp r hmem hk hu ha
      unfold neonGetKey
      rw [hn]
      show (if neonExpired now r then (none, nst) else _) = (none, nst)
      rw [if_pos hex]
  have hloc : localGetQuantumKey now k u lst =
      (if now > lrow.expiry_time ∧ lrow.status = "unused" then
        (none, lst.map (fun s =>
          if s.key_id == k then { s with status := "expired" } else s))
      else if lrow.status = "used" ∨ lrow.status = "expired" then (none, lst)
      else
        (some (LocalFetched.mk lrow.key_id lrow.key_bytes lrow.status
          lrow.key_length), lst)) := by
    unfold localGetQuantumKey
    rw [hfind]
  rcases hstat with h | h | h
  · rw [hloc, if_pos ⟨hlex, h⟩]
    exact ⟨hneon, rfl, fun _ => rfl, fun hne => absurd h hne⟩
  · rw [hloc, if_neg (by simp [h]), if_pos (Or.inl h)]
    exact ⟨hneon, rfl, fun hu => by rw [h] at hu; exact absurd hu (by decide),
      fun _ => rfl⟩
  · rw [hloc, if_neg (by simp [h]), if_pos (Or.inr h)]
    exact ⟨hneon, rfl, fun hu => by rw [h] at hu; exact absurd hu (by decide),
      fun _ => rfl⟩

theorem expired_fetch_amended_witness :
    neonGetKey 20 "k2" "alice" exExpiredStore = (none, exExpiredStore) ∧
    (localGetQuantumKey 20 "k2" "alice" exLocalExpiredStore).1 = none :=
  ⟨(expired_fetch_amended 20 "k2" "alice" exExpiredStore (by decide)
      exLocalExpiredStore exLocalExpiredRow (by decide) (by decide)
      (by decide)).1,
   (expired_fetch_amended 20 "k2" "alice" exExpiredStore (by decide)
      exLocalExpiredStore exLocalExpiredRow (by decide) (by decide)
      (by decide)).2.1⟩

/-! ## C5: mark_used result contract -/

/-- C5 (counterexample): `QuantumKeyService.mark_key_used` on a row whose
status is already `'used'` returns `True` — not `False` as the claim
states — re-marking the row and overwriting `used_by`. -/
theorem mark_used_already_used_returns_true :
    exUsedSvcRow.status = "used" ∧
    (svcMarkKeyUsed 9 "k4" "B" [exUsedSvcRow]).1 = true ∧
    (svcMarkKeyUsed 9 "k4" "B" [exUsedSvcRow]).2.map (fun r => r.used_by) =
      [some "B"] := by
  decide

/-- C5 (amended): the embedded `EmbeddedKeyManager.mark_key_used` obeys
the claimed contract — `True` exactly when a row with the given `key_id`
is still `'unused'`, which it transitions to `'used'` recording `used_by`
and `used_at`, leaving non-matching rows unchanged — whereas
`QuantumKeyService.mark_key_used` returns `False` exactly when the row is
missing, so it returns `True` even on rows already `'used'` or
`'expired'`. -/
theorem mark_used_contract_amended (now : Nat) (k u : String)
    (lst : List LocalRow) (sst : List SvcRow) :
    ((localMarkKeyUsed now k u lst).1 = true ↔
      ∃ r ∈ lst, r.key_id = k ∧ r.status = "unused") ∧
    (∀ r ∈ lst, r.key_id = k → r.status = "unused" →
      { r with status := "used", used_by := some u, used_at := some now } ∈
        (localMarkKeyUsed now k u lst).2) ∧
    (∀ r ∈ lst, ¬(r.key_id = k ∧ r.status = "unused") →
      r ∈ (localMarkKeyUsed now k u lst).2) ∧
    ((svcMarkKeyUsed now k u sst).1 = true ↔ ∃ r ∈ sst, r.key_id = k) := by
  refine ⟨?_, ?_, ?_, ?_⟩
  · simp [localMarkKeyUsed, List.any_eq_true, Bool.and_eq_true, beq_iff_eq]
  · intro r hr hk hs
    refine List.mem_map.mpr ⟨r, hr, ?_⟩
    simp [hk, hs]
  · intro r hr hnot
    refine List.mem_map.mpr ⟨r, hr, ?_⟩
    rw [if_neg (by simpa [Bool.and_eq_true, beq_iff_eq] using hnot)]
  · have hfst : (svcMarkKeyUsed now k u sst).1 =
        (sst.find? (fun r => r.key_id == k)).isSome := by
      unfold svcMarkKeyUsed
      cases hf : sst.find? (fun r => r.key_id == k) <;> simp [hf]
    rw [hfst, List.find?_isSome]
    simp [beq_iff_eq]

theorem mark_used_contract_amended_witness :
    (localMarkKeyUsed 7 "kL" "bob" exLocalStore).1 = true :=
  (mark_used_contract_amended 7 "kL" "bob" exLocalStore []).1.mpr
    ⟨exLocalUnusedRow, by decide, by decide, by decide⟩

/-! ## C6: holder isolation on fetch -/

/-- C6: usage isolation fails in `NeonKeyManager.get_key` — its
usage-count update (`UPDATE quantum_keys SET usage_count = usage_count + 1
WHERE key_id = %s`, lines 301-305) filters on `key_id` alone, so a
successful fetch by holder `A` also increments holder `B`'s row for the
same shared `key_id`: both rows go from `usage_count = 0` to `1`. -/
theorem fetch_increments_other_holders_row :
    exTwoHolderStore.map (fun r => r.usage_count) = [0, 0] ∧
    ((neonGetKey 5 "k3" "A" exTwoHolderStore).1).isSome = true ∧
    (neonGetKey 5 "k3" "A" exTwoHolderStore).2.map (fun r => r.usage_count) =
      [1, 1] := by
  decide

/-! ## C7: status state machine terminality -/

/-- C7 (counterexample): `QuantumKeyService.mark_key_used` moves an
`'expired'` row to `'used'` and reports success — a transition out of
`'expired'`, which the claim says no operation ever performs. -/
theorem mark_used_relabels_expired_row :
    exExpiredSvcRow.status = "expired" ∧
    (svcMarkKeyUsed 9 "k5" "B" [exExpiredSvcRow]).1 = true ∧
    (svcMarkKeyUsed 9 "k5" "B" [exExpiredSvcRow]).2.map (fun r => r.status) =
      ["used"] := by
  decide

theorem localGet_state (now : Nat) (k u : String) (st : List LocalRow) :
    (localGetQuantumKey now k u st).2 =
      match localFind k u st with
      | none => st
      | some row =>
        if now > row.expiry_time ∧ row.status = "unused" then
          st.map (fun s =>
            if s.key_id == k then { s with status := "expired" } else s)
        else st := by
  cases hf : localFind k u st with
  | none => simp [localGetQuantumKey, hf]
  | some row =>
    simp only [localGetQuantumKey, hf]
    split_ifs <;> rfl

/-- C7 (amended): in the embedded manager every store operation
(`get_quantum_key`, `mark_key_used`, `cleanup_expired_keys`) preserves row
identity and performs only the transitions `unused → used` and
`unused → expired`: rows in `'used'` or `'expired'` never change status —
while `QuantumKeyService.mark_key_used` violates terminality (see the
counterexample). -/
theorem status_transitions_terminal_embedded
    (op : LocalOp) (st : List LocalRow) (hnd : localKeysNodup st)
    (i : Nat) (hi : i < st.length)
    (hi' : i < (applyLocalOp st op).length) :
    (applyLocalOp st op).length = st.length ∧
    (applyLocalOp st op)[i].key_id = st[i].key_id ∧
    (st[i].status = "used" → (applyLocalOp st op)[i].status = "used") ∧
    (st[i].status = "expired" → (applyLocalOp st op)[i].status = "expired") ∧
    ((applyLocalOp st op)[i].status ≠ st[i].status →
      st[i].status = "unused" ∧
      ((applyLocalOp st op)[i].status = "used" ∨
        (applyLocalOp st op)[i].status = "expired")) := by
  cases op with
  | mark mnow mk mu =>
    show ((st.map _).length = _) ∧ _
    simp only [applyLocalOp, localMarkKeyUsed, List.length_map,
      List.getElem_map]
    by_cases hc : (st[i].key_id == mk && st[i].status == "unused") = true
    · obtain ⟨hk', hs⟩ : st[i].key_id = mk ∧ st[i].status = "unused" := by
        simpa [Bool.and_eq_true, beq_iff_eq] using hc
      rw [if_pos hc]
      refine ⟨by trivial, by trivial, ?_, ?_, fun _ => ⟨hs, Or.inl rfl⟩⟩
      · intro hu; exact absurd (hs.symm.trans hu) (by decide)
      · intro hu; exact absurd (hs.symm.trans hu) (by decide)
    · rw [if_neg hc]
      exact ⟨by trivial, by trivial, fun h => h, fun h => h, fun hne => absurd rfl hne⟩
  | sweep snow =>
    show ((st.map _).length = _) ∧ _
    simp only [applyLocalOp, localCleanupExpired, List.length_map,
      List.getElem_map]
    by_cases hc : (st[i].status == "unused" &&
        decide (st[i].expiry_time < snow)) = true
    · have hs : st[i].status = "unused" := by
        have := (Bool.and_eq_true _ _).mp hc
        simpa [beq_iff_eq] using this.1
      rw [if_pos hc]
      refine ⟨by trivial, by trivial, ?_, ?_, fun _ => ⟨hs, Or.inr rfl⟩⟩
      · intro hu; exact absurd (hs.symm.trans hu) (by decide)
      · intro hu; exact absurd (hs.symm.trans hu) (by decide)
    · rw [if_neg hc]
      exact ⟨by trivial, by trivial, fun h => h, fun h => h, fun hne => absurd rfl hne⟩
  | get gnow gk gu =>
    have hstate := localGet_state gnow gk gu st
    cases hf : localFind gk gu st with
    | none =>
      have he : applyLocalOp st (.get gnow gk gu) = st := by
        show (localGetQuantumKey gnow gk gu st).2 = st
        rw [hstate, hf]
      simp only [he]
      exact ⟨by trivial, by trivial, fun h => h, fun h => h, fun hne => absurd rfl hne⟩
    | some row =>
      have hrow2 := hf
      unfold localFind at hrow2
      have hrmem : row ∈ st := List.mem_of_find?_eq_some hrow2
      have hrpred := List.find?_some hrow2
      simp only [Bool.and_eq_true, beq_iff_eq] at hrpred
      obtain ⟨hrk, hru⟩ := hrpred
      by_cases hb : gnow > row.expiry_time ∧ row.status = "unused"
      · have he : applyLocalOp st (.get gnow gk gu) =
            st.map (fun s =>
              if s.key_id == gk then { s with status := "expired" } else s) := by
          show (localGetQuantumKey gnow gk gu st).2 = _
          rw [hstate, hf]
          exact if_pos hb
        simp only [he, List.length_map, List.getElem_map]
        by_cases hck : (st[i].key_id == gk) = true
        · have hceq : st[i].key_id = gk := by simpa [beq_iff_eq] using hck
          have heq : st[i] = row :=
            List.inj_on_of_nodup_map hnd (List.getElem_mem hi) hrmem
              (by rw [hceq, hrk])
          have hs : st[i].status = "unused" := by rw [heq]; exact hb.2
          rw [if_pos hck]
          refine ⟨by trivial, by trivial, ?_, ?_, fun _ => ⟨hs, Or.inr rfl⟩⟩
          · intro hu; exact absurd (hs.symm.trans hu) (by decide)
          · intro hu; exact absurd (hs.symm.trans hu) (by decide)
        · rw [if_neg hck]
          exact ⟨by trivial, by trivial, fun h => h, fun h => h, fun hne => absurd rfl hne⟩
      · have he : applyLocalOp st (.get gnow gk gu) = st := by
          show (localGetQuantumKey gnow gk gu st).2 = st
          rw [hstate, hf]
          exact if_neg hb
        simp only [he]
        exact ⟨by trivial, by trivial, fun h => h, fun h => h, fun hne => absurd rfl hne⟩

theorem status_transitions_terminal_embedded_witness :
    (applyLocalOp exLocalStore (.mark 7 "kL" "bob")).length =
      exLocalStore.length :=
  (status_transitions_terminal_embedded (.mark 7 "kL" "bob") exLocalStore
    (by unfold localKeysNodup; decide) 0 (by decide) (by decide)).1

/-! ## C8, C9: entropy generator -/

/-- C9: `_measure_entropy_quality` cannot return for a nonempty input —
`probability = count / total_bytes` is a Python float (true division) and
floats have no `bit_length` attribute, so the first positive histogram
count raises `AttributeError` — while the empty input returns `0.0`.  This
contradicts both the claim and the function's own docstring ("Returns
value between 0.0 and 1.0"). -/
theorem entropy_quality_raises_on_nonempty :
    measure_entropy_quality [0] = .error pyFloatBitLengthError ∧
    measure_entropy_quality [] = .ok 0 :=
  ⟨rfl, rfl⟩

/-- C8: `generate_key_with_verification` raises instead of returning: on
a 1-byte key with protocol `'BB84'` and `max_attempts = 3` (no noise
flips drawn), the very first attempt's metadata construction inside
`generate_quantum_key` (line 66) calls `_measure_entropy_quality`, which
raises `AttributeError`; the mark-and-return path at lines 310-314 is
never reached. -/
theorem generator_raises_on_first_attempt :
    generate_key_with_verification (fun _ _ _ => false) (fun _ => [0]) "BB84"
      0 3 = .error pyFloatBitLengthError :=
  rfl

/-! ## C10: single-use enforcement at fetch -/

theorem map_write_preserves (st : List LocalRow) (k : String)
    (f : LocalRow → LocalRow)
    (hf : ∀ r, f r = r ∨ ((f r).key_id = r.key_id ∧
      ((f r).status = "used" ∨ (f r).status = "expired")))
    (hok : localStatusOk st) :
    localStatusOk (st.map f) ∧
      (localNoUnused k st → localNoUnused k (st.map f)) := by
  constructor
  · intro r hr
    obtain ⟨s, hs, rfl⟩ := List.mem_map.mp hr
    rcases hf s with h | ⟨_, h | h⟩
    · rw [h]; exact hok s hs
    · exact Or.inr (Or.inl h)
    · exact Or.inr (Or.inr h)
  · intro hnu r hr hk
    obtain ⟨s, hs, rfl⟩ := List.mem_map.mp hr
    rcases hf s with h | ⟨_, h | h⟩
    · rw [h] at hk ⊢; exact hnu s hs hk
    · rw [h]; simp
    · rw [h]; simp

theorem step_preserves (st : List LocalRow) (op : LocalOp) (k : String)
    (hok : localStatusOk st) :
    localStatusOk (applyLocalOp st op) ∧
      (localNoUnused k st → localNoUnused k (applyLocalOp st op)) := by
  cases op with
  | mark mnow mk mu =>
    refine map_write_preserves st k _ ?_ hok
    intro r
    by_cases hc : (r.key_id == mk && r.status == "unused") = true
    · right; rw [if_pos hc]; exact ⟨rfl, Or.inl rfl⟩
    · left; rw [if_neg hc]
  | sweep snow =>
    refine map_write_preserves st k _ ?_ hok
    intro r
    by_cases hc : (r.status == "unused" && decide (r.expiry_time < snow)) = true
    · right; rw [if_pos hc]; exact ⟨rfl, Or.inr rfl⟩
    · left; rw [if_neg hc]
  | get gnow gk gu =>
    show localStatusOk (localGetQuantumKey gnow gk gu st).2 ∧
      (localNoUnused k st → localNoUnused k (localGetQuantumKey gnow gk gu st).2)
    rw [localGet_state]
    cases hfind : localFind gk gu st with
    | none => exact ⟨hok, fun hnu => hnu⟩
    | some row =>
      show localStatusOk
          (if gnow > row.expiry_time ∧ row.status = "unused" then
            st.map (fun s =>
              if s.key_id == gk then { s with status := "expired" } else s)
          else st) ∧
        (localNoUnused k st → localNoUnused k
          (if gnow > row.expiry_time ∧ row.status = "unused" then
            st.map (fun s =>
              if s.key_id == gk then { s with status := "expired" } else s)
          else st))
      by_cases hb : gnow > row.expiry_time ∧ row.status = "unused"
      · rw [if_pos hb]
        refine map_write_preserves st k _ ?_ hok
        intro r
        by_cases hc : (r.key_id == gk) = true
        · right; rw [if_pos hc]; exact ⟨rfl, Or.inr rfl⟩
        · left; rw [if_neg hc]
      · rw [if_neg hb]; exact ⟨hok, fun hnu => hnu⟩

theorem ops_preserve (k : String) :
    ∀ (ops : List LocalOp) (st : List LocalRow),
      localStatusOk st → localNoUnused k st →
      localStatusOk (applyLocalOps st ops) ∧
        localNoUnused k (applyLocalOps st ops) := by
  intro ops
  induction ops with
  | nil => intro st hok hnu; exact ⟨hok, hnu⟩
  | cons op ops ih =>
    intro st hok hnu
    have hstep := step_preserves st op k hok
    exact ih (applyLocalOp st op) hstep.1 (hstep.2 hnu)

theorem mark_establishes_noUnused (now : Nat) (k u : String)
    (st : List LocalRow) :
    localNoUnused k (localMarkKeyUsed now k u st).2 := by
  intro r hr hk
  obtain ⟨s, hs, rfl⟩ := List.mem_map.mp hr
  by_cases hc : (s.key_id == k && s.status == "unused") = true
  · rw [if_pos hc]; simp
  · rw [if_neg hc]
    rw [if_neg hc] at hk
    intro hs'
    exact hc (by simp [Bool.and_eq_true, beq_iff_eq, hk, hs'])

theorem localGet_none_of_noUnused (now : Nat) (k u : String)
    (st : List LocalRow) (hok : localStatusOk st)
    (hnu : localNoUnused k st) :
    (localGetQuantumKey now k u st).1 = none := by
  cases hf : localFind k u st with
  | none => simp [localGetQuantumKey, hf]
  | some row =>
    have hf2 := hf
    unfold localFind at hf2
    have hmem : row ∈ st := List.mem_of_find?_eq_some hf2
    have hpred := List.find?_some hf2
    simp only [Bool.and_eq_true, beq_iff_eq] at hpred
    have hne : row.status ≠ "unused" := hnu row hmem hpred.1
    have hue : row.status = "used" ∨ row.status = "expired" := by
      rcases hok row hmem with h | h | h
      · exact absurd h hne
      · exact Or.inl h
      · exact Or.inr h
    simp only [localGetQuantumKey, hf]
    rw [if_neg (fun hcon => hne hcon.2), if_pos hue]

/-- C10: in the embedded local store a row whose status is `'used'` or
`'expired'` is never returned by `get_quantum_key`, and after
`mark_key_used(key_id, u)` succeeds, `get_quantum_key(key_id, holder)`
returns `None` for every holder, at every later time, and after any
further sequence of get/mark/sweep operations. -/
theorem single_use_enforced_at_fetch
    (now now2 : Nat) (k u holder : String) (st : List LocalRow)
    (hok : localStatusOk st)
    (_hsucc : (localMarkKeyUsed now k u st).1 = true)
    (ops : List LocalOp) :
    (∀ (st' : List LocalRow) (r : LocalRow),
      localFind k holder st' = some r →
      r.status = "used" ∨ r.status = "expired" →
      (localGetQuantumKey now2 k holder st').1 = none) ∧
    (localGetQuantumKey now2 k holder
      (applyLocalOps (localMarkKeyUsed now k u st).2 ops)).1 = none := by
  constructor
  · intro st' r hf hue
    have hne : r.status ≠ "unused" := by
      rcases hue with h | h <;> rw [h] <;> decide
    simp only [localGetQuantumKey, hf]
    rw [if_neg (fun hcon => hne hcon.2), if_pos hue]
  · have hok1 : localStatusOk (localMarkKeyUsed now k u st).2 :=
      (step_preserves st (.mark now k u) k hok).1
    have hnu1 : localNoUnused k (localMarkKeyUsed now k u st).2 :=
      mark_establishes_noUnused now k u st
    have hinv := ops_preserve k ops (localMarkKeyUsed now k u st).2 hok1 hnu1
    exact localGet_none_of_noUnused now2 k holder _ hinv.1 hinv.2

theorem single_use_enforced_at_fetch_witness :
    (localGetQuantumKey 8 "kL" "bob"
      (applyLocalOps (localMarkKeyUsed 7 "kL" "alice" exLocalStore).2 [])).1 =
      none :=
  (single_use_enforced_at_fetch 7 8 "kL" "alice" "bob" exLocalStore
    (by intro r hr; unfold exLocalStore at hr; simp at hr; subst hr; left; rfl)
    (by decide) []).2
